import Mathlib

/-!
Verification development for the invoice-customizer repository.

Shallow embedding conventions:
* Python strings are modelled as lists of Unicode code points (`List Nat`);
  `codes` converts a Lean string literal to this representation.
* Character predicates (`isalpha`, `upper`, `lower`, whitespace) are modelled
  on their ASCII fragment, which is the fragment every claim exercises.
* The bounded while-loop that pads the 4-letter name code against the set of
  used letters is the only loop of the program without a structural bound, so
  it is modelled with explicit fuel (`padUsed`); `none` means the loop was
  still running when the fuel ran out, and a result that is `none` for every
  fuel is a non-terminating execution.
* The two drifting source variants of generate_brand_id are embedded
  separately in namespaces `App` (src/app.py) and `Processor`
  (src/brand_id_processor.py).
-/

/-- Code points of a string literal (Python str as list of `ord` values). -/
def codes (s : String) : List Nat := s.data.map Char.toNat

/-- ASCII letter test: the fragment of Python str.isalpha the repo relies on. -/
def isAlphaCp (c : Nat) : Bool := (65 ≤ c && c ≤ 90) || (97 ≤ c && c ≤ 122)

/-- ASCII lower-casing, the fragment of Python str.lower used here. -/
def toLowerCp (c : Nat) : Nat := if 65 ≤ c && c ≤ 90 then c + 32 else c

/-- ASCII upper-casing, the fragment of Python str.upper used here. -/
def toUpperCp (c : Nat) : Nat := if 97 ≤ c && c ≤ 122 then c - 32 else c

/-- vowels = ['a','e','i','o','u'] membership test after lower-casing,
as in `char.lower() not in vowels` (negated). -/
def isVowelCp (c : Nat) : Bool :=
  let l := toLowerCp c
  l == 97 || l == 101 || l == 105 || l == 111 || l == 117

/-- ASCII whitespace, the fragment of Python str.split / str.strip used here. -/
def isWsCp (c : Nat) : Bool := c == 32 || (9 ≤ c && c ≤ 13)

/-- Uppercase ASCII letter range test (for the BRAND-XXXX format check). -/
def isUpperCp (c : Nat) : Bool := 65 ≤ c && c ≤ 90

/-- Decimal digit range test (for the BRAND id 4-digit segment check). -/
def isDigitCp (c : Nat) : Bool := 48 ≤ c && c ≤ 57

/-- Membership of a code point in a list (Python `in` on a set or list). -/
def hasN (l : List Nat) (c : Nat) : Bool :=
  match l with
  | [] => false
  | d :: t => if d = c then true else hasN t c

/-- Python str.strip(): drop ASCII whitespace from both ends. -/
def stripWs (s : List Nat) : List Nat :=
  ((s.dropWhile isWsCp).reverse.dropWhile isWsCp).reverse

/-- Accumulator worker for `splitWs`; `acc` holds the reversed current word. -/
def splitWsAux : List Nat → List Nat → List (List Nat)
  | [], acc => if acc = [] then [] else [acc.reverse]
  | c :: rest, acc =>
    if isWsCp c then
      if acc = [] then splitWsAux rest [] else acc.reverse :: splitWsAux rest []
    else splitWsAux rest (c :: acc)

/-- Python str.split(): split on runs of whitespace, dropping empty tokens. -/
def splitWs (s : List Nat) : List (List Nat) := splitWsAux s []

/-- Worker for `decimalDigits`; the fuel only bounds the recursion depth
and `decimalDigits` passes enough of it for every input (the argument
strictly decreases through division by ten), so the fuel-0 fallback is
unreachable. -/
def decimalDigitsAux : Nat → Nat → List Nat
  | 0, n => [48 + n % 10]
  | fuel + 1, n =>
    if n < 10 then [48 + n]
    else decimalDigitsAux fuel (n / 10) ++ [48 + n % 10]

/-- Python str(n) for a natural number: decimal digit code points. -/
def decimalDigits (n : Nat) : List Nat := decimalDigitsAux n n

/-- The padding characters ['X', 'Y', 'Z'] as code points. -/
def padChars : List Nat := [88, 89, 90]

/-- Default business_name used when input is missing/empty/non-string. -/
def unknownCodes : List Nat := codes "Unknown"

/-- Default email used when input is missing or non-string. -/
def defaultEmailCodes : List Nat := codes "example@example.com"

/-- Input coercion for business_name (app.py lines 89-90 and
brand_id_processor.py lines 276-277): falsy, non-string or
whitespace-only input becomes "Unknown".  The non-string case of the
source collapses to the same default and is covered by the same branch. -/
def coerceName (bn : List Nat) : List Nat :=
  if bn = [] ∨ stripWs bn = [] then unknownCodes else bn

/-- Input coercion for email (app.py lines 92-93): falsy or non-string
input becomes "example@example.com". -/
def coerceEmail (em : List Nat) : List Nat :=
  if em = [] then defaultEmailCodes else em

/-- has_consonants scan (app.py lines 103-108): any alphabetic non-vowel. -/
def hasConsonants (s : List Nat) : Bool :=
  s.any (fun c => isAlphaCp c && !isVowelCp c)

/-- Worker for `padCycleLoop`: each iteration of the source loop appends
exactly one character and the loop stops at length 4, so four units of
fuel cover every possible run and the fuel-0 fallback is unreachable. -/
def padCycleAux : Nat → List Nat → Nat → List Nat
  | 0, s, _ => s
  | fuel + 1, s, i =>
    if s.length < 4 then padCycleAux fuel (s ++ [padChars.getD (i % 3) 88]) (i + 1)
    else s

/-- The unconditional X/Y/Z cyclic padding loop of the no-consonant branch
(app.py lines 113-119): `name_part += padding_chars[i % 3]` until length 4. -/
def padCycleLoop (s : List Nat) (i : Nat) : List Nat := padCycleAux 4 s i

/-- The final while-loop padding the name code with unused members of
X/Y/Z (app.py lines 160-167, brand_id_processor.py lines 354-361):
`while len(name_part) < 4: c = padding_chars[i % 3]; if c not in
used_letters: append and mark used; i += 1`.  Modelled with fuel because
the source loop has no progress guarantee: when X, Y and Z are all in
used_letters and the name code is still short, no iteration appends. -/
def padUsed : Nat → List Nat → List Nat → Nat → Option (List Nat)
  | 0, np, _, _ => if 4 ≤ np.length then some np else none
  | fuel + 1, np, used, i =>
    if 4 ≤ np.length then some np
    else
      let p := padChars.getD (i % 3) 88
      if hasN used p then padUsed fuel np used (i + 1)
      else padUsed fuel (np ++ [p]) (p :: used) (i + 1)

/-- One in-word padding step (app.py lines 150-154, processor lines
340-344): append the first of X, Y, Z not yet used, if any. -/
def padStep (np used : List Nat) : List Nat × List Nat :=
  match padChars.find? (fun p => !hasN used p) with
  | some p => (np ++ [p], p :: used)
  | none => (np, used)

namespace App

/-- The per-word construction loop of src/app.py generate_brand_id
(lines 122-154): for each word append the uppercased first letter if
unused, break at length 4, then append the first consonant of the word
whose uppercase form is unused, else pad with an unused X/Y/Z. -/
def appWordLoop : List (List Nat) → List Nat → List Nat → List Nat × List Nat
  | [], np, used => (np, used)
  | w :: ws, np, used =>
    if 4 ≤ np.length then (np, used)
    else
      let ini := toUpperCp (w.headD 0)
      let s1 := if hasN used ini then (np, used) else (np ++ [ini], ini :: used)
      if 4 ≤ s1.1.length then s1
      else
        match w.find? (fun c => isAlphaCp c && !isVowelCp c &&
            !hasN s1.2 (toUpperCp c)) with
        | some c => appWordLoop ws (s1.1 ++ [toUpperCp c]) (toUpperCp c :: s1.2)
        | none =>
          if s1.1.length < 4 then
            let s2 := padStep s1.1 s1.2
            appWordLoop ws s2.1 s2.2
          else appWordLoop ws s1.1 s1.2

/-- src/app.py generate_brand_id (lines 69-177).  Words are split on
whitespace with the ["Unknown"] fallback (lines 99-101); the
no-consonant branch (lines 111-119) upper-cases the first four
characters of the name and pads cyclically; otherwise the word loop
runs, the result is trimmed to 4 and padded by the fueled used-letter
loop; the email code is the right-aligned zero-filled last four decimal
digits of the sum of the email code points (lines 170-171). -/
def generate_brand_id (fuel : Nat) (businessName email : List Nat) :
    Option (List Nat) :=
  let bn := coerceName businessName
  let em := coerceEmail email
  let ws0 := splitWs bn
  let words := if ws0 = [] then [unknownCodes] else ws0
  if hasConsonants bn then
    let s := appWordLoop words [] []
    (padUsed fuel (s.1.take 4) s.2 0).map
      (fun np4 => codes "BRAND-" ++ np4 ++ 45 :: emailPartCodes em)
  else
    some (codes "BRAND-" ++ padCycleLoop ((bn.take 4).map toUpperCp) 0 ++
      45 :: emailPartCodes em)
where
  /-- Email code (lines 170-171): str(sum(ord(c)))[-4:].zfill(4). -/
  emailPartCodes (em : List Nat) : List Nat :=
    let ds := decimalDigits (em.foldl (· + ·) 0)
    let last4 := ds.drop (ds.length - 4)
    List.replicate (4 - last4.length) 48 ++ last4

end App

namespace Processor

/-- First consonant of a word ignoring used letters (brand_id_processor.py
lines 328-332): the uppercase of the first alphabetic non-vowel. -/
def firstCons (w : List Nat) : Option Nat :=
  match w.find? (fun c => isAlphaCp c && !isVowelCp c) with
  | some c => some (toUpperCp c)
  | none => none

/-- The per-word construction loop of src/brand_id_processor.py
generate_brand_id (lines 308-348).  initials[i] is the uppercased first
letter of words[i] (lines 309-312, all words returned by split are
non-empty so the index is always in range); each iteration appends the
initial if unused, then the first consonant of the word if unused, else
an unused X/Y/Z when still short of 4, and breaks once length 4 is
reached. -/
def procWordLoop : List (List Nat) → List Nat → List Nat → List Nat × List Nat
  | [], np, used => (np, used)
  | w :: ws, np, used =>
    if 4 ≤ np.length then (np, used)
    else
      let ini := toUpperCp (w.headD 0)
      let s1 := if hasN used ini then (np, used) else (np ++ [ini], ini :: used)
      let s2 :=
        match firstCons w with
        | some fc =>
          if !hasN s1.2 fc then (s1.1 ++ [fc], fc :: s1.2)
          else if s1.1.length < 4 then padStep s1.1 s1.2 else s1
        | none => if s1.1.length < 4 then padStep s1.1 s1.2 else s1
      if 4 ≤ s2.1.length then s2 else procWordLoop ws s2.1 s2.2

/-- src/brand_id_processor.py generate_brand_id (lines 256-371): same
coercions, no-consonant branch and email code as the app.py variant, but
with the drifted word loop `procWordLoop`.  (Lines 372-379 after the
return statement are dead code and are not part of the behaviour.) -/
def generate_brand_id (fuel : Nat) (businessName email : List Nat) :
    Option (List Nat) :=
  let bn := coerceName businessName
  let em := coerceEmail email
  let ws0 := splitWs bn
  let words := if ws0 = [] then [unknownCodes] else ws0
  if hasConsonants bn then
    let s := procWordLoop words [] []
    (padUsed fuel (s.1.take 4) s.2 0).map
      (fun np4 => codes "BRAND-" ++ np4 ++ 45 :: App.generate_brand_id.emailPartCodes em)
  else
    some (codes "BRAND-" ++ padCycleLoop ((bn.take 4).map toUpperCp) 0 ++
      45 :: App.generate_brand_id.emailPartCodes em)

end Processor

/-- Decidable matcher for the documented Brand ID shape
BRAND-XXXX-NNNN, i.e. the anchored regular expression
BRAND- then 4 uppercase ASCII letters, a hyphen, and 4 decimal digits. -/
def matchesBrandIdFormat (s : List Nat) : Bool :=
  match s with
  | b :: r :: a :: n :: d :: h1 :: c1 :: c2 :: c3 :: c4 :: h2 ::
      d1 :: d2 :: d3 :: d4 :: [] =>
    (b == 66 && r == 82 && a == 65 && n == 78 && d == 68 &&
      h1 == 45 && h2 == 45) &&
    (isUpperCp c1 && isUpperCp c2 && isUpperCp c3 && isUpperCp c4) &&
    (isDigitCp d1 && isDigitCp d2 && isDigitCp d3 && isDigitCp d4)
  | _ => false

/-!
Event ledger (the PROCESSED_EVENTS / PROCESSED_ORDERS OrderedDict caches,
src/app.py lines 43-46, src/etsy_listener.py lines 48-51) and the record
pattern repeated at every write site:

    if len(CACHE) >= MAX_CACHE_SIZE:
        CACHE.popitem(last=False)
    CACHE[key] = ...entry...

The OrderedDict is modelled as an association list in insertion order
(oldest first).  Assigning an existing key keeps its position; assigning a
new key appends; popitem(last=False) removes the head.
-/

/-- One cache entry: a record timestamp and the processed flag, as in the
dicts written by the handlers. -/
structure LedgerEntry where
  ts : Nat
  processed : Bool
deriving DecidableEq, Repr

/-- An OrderedDict in insertion order, oldest entry first. -/
abbrev Ledger (κ : Type) : Type := List (κ × LedgerEntry)

/-- Cache capacity MAX_CACHE_SIZE = 100. -/
def MAX_CACHE_SIZE : Nat := 100

/-- Python `key in dict` / `dict[key]` lookup. -/
def lookupEntry {κ : Type} [DecidableEq κ] : Ledger κ → κ → Option LedgerEntry
  | [], _ => none
  | (k, e) :: t, k' => if k = k' then some e else lookupEntry t k'

/-- Python `key in dict`. -/
def containsKey {κ : Type} [DecidableEq κ] (l : Ledger κ) (k : κ) : Bool :=
  (lookupEntry l k).isSome

/-- The duplicate test of the handlers:
`event_id in PROCESSED_EVENTS and PROCESSED_EVENTS[event_id].get("processed", False)`. -/
def isProcessedIn {κ : Type} [DecidableEq κ] (l : Ledger κ) (k : κ) : Bool :=
  match lookupEntry l k with
  | some e => e.processed
  | none => false

/-- OrderedDict assignment `d[k] = e`: overwrite in place when the key is
present (insertion order kept), otherwise append at the end. -/
def setKey {κ : Type} [DecidableEq κ] : Ledger κ → κ → LedgerEntry → Ledger κ
  | [], k, e => [(k, e)]
  | (k0, e0) :: t, k, e =>
    if k0 = k then (k0, e) :: t else (k0, e0) :: setKey t k e

/-- The repeated record pattern: popitem(last=False) when at capacity,
then assign the entry. -/
def recordEvent {κ : Type} [DecidableEq κ] (l : Ledger κ) (k : κ)
    (e : LedgerEntry) : Ledger κ :=
  setKey (if MAX_CACHE_SIZE ≤ l.length then l.drop 1 else l) k e

/-- src/app.py is_stale_event (lines 459-468).  Parsing of the claimed
timestamp by dateutil is modelled by its outcome: `none` when parsing (or
the datetime subtraction) raises, `some d` when it yields a time
difference of `d` minutes between now and the claimed creation time.
The function returns the pair (is_stale, time_diff); on a parse failure
it returns (False, 0), i.e. the event is assumed not stale. -/
def is_stale_event (parsed : Option ℚ) (maxAgeMinutes : ℚ := 5) : Bool × ℚ :=
  match parsed with
  | none => (false, 0)
  | some d => (decide (maxAgeMinutes < d), d)

/-- HTTP response classes returned by the webhook handlers: 204 no
content, 400 client error, 500 server error. -/
inductive Resp where
  | noContent
  | clientError
  | serverError
deriving DecidableEq, Repr

/-- Externally visible collaborator calls a handler run can make, in
order.  The short-circuit paths make none. -/
inductive ExtCall where
  | notionUpsert
  | templateGen
  | emailSend
deriving DecidableEq, Repr

namespace App

/-- A /preview_webhook request to src/app.py as the handler sees it:
the optional eventId (data.get("eventId"), `none` for a missing or null
id), the staleness-parse outcome for data.get("createdAt") (as in
`is_stale_event`), the wall-clock time.time() used for ledger
timestamps, and the extracted form fields (label to value; a value is
`none` when Tally sent a list without an url entry).  The handler body
reads the fields (lines 879-900) but its outcome does not depend on
them: line 902 (the assignment of logo_bytes) is commented out, so line
903 raises NameError first. -/
structure Request (κ : Type) where
  eventId : Option κ
  staleParse : Option ℚ
  now : Nat
  fields : List (List Nat × Option (List Nat))

/-- Outcome of one handler run: the HTTP response class, the ledger
after the run, and the collaborator calls made. -/
structure HandlerResult (κ : Type) where
  resp : Resp
  ledger : Ledger (Option κ)
  calls : List ExtCall
deriving DecidableEq, Repr

/-- src/app.py handle_preview_request (lines 844-1007), acting on the
PROCESSED_EVENTS ledger (keys are the raw event ids, including None:
the stale and success write sites index the dict with event_id even when
it is missing, only the except-branch write is guarded by `if event_id`).
Paths:
* line 858: already recorded with processed True -> 204, no writes;
* line 867-876: stale -> record {processed: False} under event_id
  (missing id included) and 204;
* otherwise lines 879-900 extract fields, then line 903 reads the
  never-assigned logo_bytes, raising NameError before any collaborator
  call; the except branch (lines 989-997) records {processed: False}
  when event_id is truthy and returns 500.
The 204-with-processed=True success path (lines 960-987) is dead code in
this handler. -/
def handle_preview_request {κ : Type} [DecidableEq κ] (req : Request κ)
    (ledger : Ledger (Option κ)) : HandlerResult κ :=
  if isProcessedIn ledger req.eventId then
    { resp := .noContent, ledger := ledger, calls := [] }
  else if (is_stale_event req.staleParse).1 then
    { resp := .noContent,
      ledger := recordEvent ledger req.eventId ⟨req.now, false⟩, calls := [] }
  else
    { resp := .serverError,
      ledger :=
        if req.eventId.isSome then
          recordEvent ledger req.eventId ⟨req.now, false⟩
        else ledger,
      calls := [] }

end App

namespace Etsy

/-- Dict built from the webhook field list (etsy_listener lines 933-946):
later labels overwrite earlier ones; a stored value is `none` when the
Tally value was a list without an url (set to None by the loop). -/
def fieldsGet (fl : List (List Nat × Option (List Nat))) (label : List Nat) :
    Option (Option (List Nat)) :=
  match fl with
  | [] => none
  | (l, v) :: t =>
    match fieldsGet t label with
    | some r => some r
    | none => if l = label then some v else none

/-- fields.get(label, "") followed by the truthiness test of the source:
missing label, None value and empty string all count as falsy. -/
def fieldTruthy (fl : List (List Nat × Option (List Nat)))
    (label : List Nat) : Bool :=
  match fieldsGet fl label with
  | some (some v) => v ≠ []
  | some none => false
  | none => false

/-- A /preview_webhook request to src/etsy_listener.py: eventId,
staleness-parse outcome for createdAt (lines 912-920 parse only a truthy
createdAt and swallow parse errors, so `none` covers both a missing and
an unparseable timestamp and leaves is_stale False), time.time(), the
field list, and the outcome of the generate_excel_template collaborator
(logo download plus spreadsheet build, `false` when it returned None). -/
structure Request (κ : Type) where
  eventId : Option κ
  staleParse : Option ℚ
  now : Nat
  fields : List (List Nat × Option (List Nat))
  templateOk : Bool

/-- Outcome of one handler run, as for the app.py variant. -/
structure HandlerResult (κ : Type) where
  resp : Resp
  ledger : Ledger (Option κ)
  calls : List ExtCall
deriving DecidableEq, Repr

/-- The inline staleness check of etsy_listener lines 912-920. -/
def staleCheck (staleParse : Option ℚ) : Bool :=
  match staleParse with
  | none => false
  | some d => decide ((5 : ℚ) < d)

/-- send_email of src/etsy_listener.py (lines 287-483) as called by the
preview handler (subject "Your Invoice Template Preview").  When the SMTP
credentials are unset it returns False at line 306.  Otherwise the
subject contains "Preview", so line 373 interpolates the undefined name
brand_data into the HTML body and raises NameError before the SMTP retry
loop is reached; no send is ever attempted and True is unreachable. -/
def send_email_preview (smtpCreds : Bool) : Except Unit Bool :=
  if smtpCreds then Except.error () else Except.ok false

/-- The label of the logo upload field. -/
def logoLabel : List Nat := codes "Upload your logo"

/-- src/etsy_listener.py handle_preview_request (lines 888-1031), acting
on PROCESSED_EVENTS.  `smtpCreds` says whether SMTP_USER and SMTP_PASS
are configured.  Paths:
* line 903: already recorded with processed True -> 204, no writes;
* lines 922-930: stale -> record {processed: False} under event_id
  (missing id included) and 204;
* lines 957-959: falsy logo field -> 400, no ledger write (before the
  Notion upsert);
* lines 968-975: Notion upsert, then template generation; on failure ->
  500, no ledger write;
* lines 978-988: send_email: with credentials it raises NameError
  (see `send_email_preview`) which the except branch (lines 1013-1021)
  turns into 500 recording {processed: False} when event_id is truthy;
  without credentials it returns False -> 500 with no ledger write.
The 204-with-processed=True success path (lines 990-1011) is dead code. -/
def handle_preview_request {κ : Type} [DecidableEq κ] (smtpCreds : Bool)
    (req : Request κ) (ledger : Ledger (Option κ)) : HandlerResult κ :=
  if isProcessedIn ledger req.eventId then
    { resp := .noContent, ledger := ledger, calls := [] }
  else if staleCheck req.staleParse then
    { resp := .noContent,
      ledger := recordEvent ledger req.eventId ⟨req.now, false⟩, calls := [] }
  else if !fieldTruthy req.fields logoLabel then
    { resp := .clientError, ledger := ledger, calls := [] }
  else if !req.templateOk then
    { resp := .serverError, ledger := ledger,
      calls := [.notionUpsert, .templateGen] }
  else
    match send_email_preview smtpCreds with
    | Except.error _ =>
      { resp := .serverError,
        ledger :=
          if req.eventId.isSome then
            recordEvent ledger req.eventId ⟨req.now, false⟩
          else ledger,
        calls := [.notionUpsert, .templateGen, .emailSend] }
    | Except.ok _ =>
      { resp := .serverError, ledger := ledger,
        calls := [.notionUpsert, .templateGen, .emailSend] }

end Etsy

namespace EtsyOrders

/-- Collaborator calls the order processor can make, in order. -/
inductive OrderCall where
  | emailLookup
  | brandQuery
  | createOrder
  | templateGen
  | emailSend
  | statusUpdate
deriving DecidableEq, Repr

/-- One polled Etsy receipt together with the outcomes of the
collaborator calls its processing would make:
* `noteBrandId`: result of the regex search for `BrandID: <token>` in
  message_from_buyer (lines 643-644);
* `emailMatch`: the brand id obtained by the fallback query of the brand
  database by buyer email (lines 650-671; `none` covers no match, a
  match without a BrandID property, and a raised-and-caught error);
* `brandDataOk`: whether get_brand_data_from_notion returned a record;
* `orderPageOk`: whether create_order_in_notion returned a page id;
* `templateOk`: whether generate_excel_template returned a path;
* `now`: time.time() for ledger timestamps. -/
structure Receipt (κ : Type) where
  orderId : κ
  noteBrandId : Option (List Nat)
  emailMatch : Option (List Nat)
  brandDataOk : Bool
  orderPageOk : Bool
  templateOk : Bool
  now : Nat

/-- Outcome of processing one receipt: the PROCESSED_ORDERS ledger after
the run and the collaborator calls made. -/
structure OrderResult (κ : Type) where
  orders : Ledger κ
  calls : List OrderCall
deriving DecidableEq, Repr

/-- send_email as called by process_etsy_order (subject "Your Licensed
Invoice Template").  Without SMTP credentials it returns False at line
306; with them, the subject does not contain "Preview", so line 413
interpolates the undefined name license_key into the HTML body and
raises NameError before the SMTP retry loop; True is unreachable. -/
def send_email_licensed (smtpCreds : Bool) : Except Unit Bool :=
  if smtpCreds then Except.error () else Except.ok false

/-- src/etsy_listener.py process_etsy_order (lines 628-757), acting on
the PROCESSED_ORDERS ledger.  Paths:
* line 633: the order id is already a key of PROCESSED_ORDERS (with
  either flag value) -> return immediately, nothing done;
* lines 643-671: take the BrandID from the buyer note, else query the
  brand database by buyer email;
* lines 673-681: still no brand id -> record {processed: False}, return;
* lines 684-694: brand data missing -> record {processed: False}, return;
* lines 697-701: order-page creation failed -> return without recording;
* lines 707-712: template generation failed -> status update "Failed",
  return without recording;
* lines 716-740: send_email: with credentials it raises NameError (see
  `send_email_licensed`), caught at line 751, which records
  {processed: False}; without credentials it returns False, giving the
  status update "Failed" with no ledger record.
The processed=True record (lines 725-737) is dead code. -/
def process_etsy_order {κ : Type} [DecidableEq κ] (smtpCreds : Bool)
    (receipt : Receipt κ) (orders : Ledger κ) : OrderResult κ :=
  if containsKey orders receipt.orderId then
    { orders := orders, calls := [] }
  else
    let resolved :=
      match receipt.noteBrandId with
      | some b => (some b, ([] : List OrderCall))
      | none => (receipt.emailMatch, [OrderCall.emailLookup])
    match resolved.1 with
    | none =>
      { orders := recordEvent orders receipt.orderId ⟨receipt.now, false⟩,
        calls := resolved.2 }
    | some _ =>
      let calls1 := resolved.2 ++ [OrderCall.brandQuery]
      if !receipt.brandDataOk then
        { orders := recordEvent orders receipt.orderId ⟨receipt.now, false⟩,
          calls := calls1 }
      else
        let calls2 := calls1 ++ [OrderCall.createOrder]
        if !receipt.orderPageOk then
          { orders := orders, calls := calls2 }
        else
          let calls3 := calls2 ++ [OrderCall.templateGen]
          if !receipt.templateOk then
            { orders := orders, calls := calls3 ++ [OrderCall.statusUpdate] }
          else
            match send_email_licensed smtpCreds with
            | Except.error _ =>
              { orders := recordEvent orders receipt.orderId ⟨receipt.now, false⟩,
                calls := calls3 ++ [OrderCall.emailSend] }
            | Except.ok _ =>
              { orders := orders,
                calls := calls3 ++ [OrderCall.emailSend, OrderCall.statusUpdate] }

end EtsyOrders

/-- A concrete full ledger: 100 distinct ids 0..99, recorded in order,
all with processed=False. -/
def ledger100 : Ledger Nat := (List.range 100).map (fun n => (n, ⟨n, false⟩))

/-!  Claim theorems. -/

/-- Helper for the divergence of the used-letter padding loop: when X, Y
and Z are all in used_letters and the name code is still shorter than 4,
every iteration takes the skip branch, so no amount of fuel finishes. -/
theorem padUsed_none_of_all_used (fuel : Nat) : ∀ np used i, np.length < 4 →
    hasN used 88 = true → hasN used 89 = true → hasN used 90 = true →
    padUsed fuel np used i = none := by
  induction fuel with
  | zero =>
    intro np used i h _ _ _
    simp only [padUsed]
    rw [if_neg (by omega)]
  | succ f ih =>
    intro np used i h h88 h89 h90
    simp only [padUsed]
    rw [if_neg (by omega)]
    have h3 : i % 3 = 0 ∨ i % 3 = 1 ∨ i % 3 = 2 := by omega
    rcases h3 with h3 | h3 | h3 <;>
      simp only [h3, padChars,
        show ((List.get? [88, 89, 90] 0).getD 88) = 88 from rfl,
        show ((List.get? [88, 89, 90] 1).getD 88) = 89 from rfl,
        show ((List.get? [88, 89, 90] 2).getD 88) = 90 from rfl,
        List.getD, h88, h89, h90, if_true] <;>
      exact ih _ _ _ h h88 h89 h90

/-- C1: the claim says generate_brand_id never fails: it terminates
normally on every input pair and returns a Brand ID string, with empty
or missing inputs coerced to the documented defaults.  The coercion part
holds (first conjunct: both inputs empty yields the id built from
business_name "Unknown" and email "example@example.com"), but the
termination part is false: on business_name "Xyz" the word loop marks
X, Y and Z as used while the name code has only 2 of its 4 characters,
after which the X/Y/Z padding while-loop of app.py lines 160-167 can
never append again, so the function loops forever (second conjunct:
the run does not complete for any amount of fuel). -/
theorem C1_generate_brand_id_not_total :
    App.generate_brand_id 10 [] [] = some (codes "BRAND-UNXY-1925") ∧
    ∀ fuel, App.generate_brand_id fuel (codes "Xyz") (codes "x@y.com") = none := by
  constructor
  · decide
  · intro fuel
    have key : padUsed fuel [88, 89] [89, 88] 0 = none := by
      match fuel with
      | 0 => rfl
      | 1 => rfl
      | 2 => rfl
      | (f + 3) =>
        have step : padUsed (f + 3) [88, 89] [89, 88] 0 =
            padUsed f [88, 89, 90] [90, 89, 88] 3 := by rfl
        rw [step]
        exact padUsed_none_of_all_used f _ _ _ (by simp) (by simp [hasN])
          (by simp [hasN]) (by simp [hasN])
    show (padUsed fuel [88, 89] [89, 88] 0).map
        (fun np4 => codes "BRAND-" ++ np4 ++ 45 ::
          App.generate_brand_id.emailPartCodes (coerceEmail (codes "x@y.com"))) = none
    rw [key]
    rfl

/-- C3: the claim says generate_brand_id("Acme Design Studio",
"x@y.com") has name segment ACDS and that both source variants carry
this obligation.  The app.py variant does return BRAND-ACDS-0670, but
the brand_id_processor.py variant returns BRAND-ACDX-0670: its word loop
looks only at the first consonant of each word ignoring used letters, so
for the word Design it sees the already-used D and pads with X instead
of scanning on to S.  This contradicts the worked example in that
function's own docstring (brand_id_processor.py line 269). -/
theorem C3_acme_design_studio_variants :
    App.generate_brand_id 10 (codes "Acme Design Studio") (codes "x@y.com") =
      some (codes "BRAND-ACDS-0670") ∧
    Processor.generate_brand_id 10 (codes "Acme Design Studio") (codes "x@y.com") =
      some (codes "BRAND-ACDX-0670") := by
  constructor
  · decide
  · decide

/-- C6: is_stale_event reports stale exactly when the parsed claimed
timestamp lies more than max_age_minutes before the current time, and a
parse failure is reported as not stale (fail open): an event 10 minutes
old with the default threshold 5 is stale, one 2 minutes old is not, a
failed parse never is, and in general some d is stale iff d exceeds the
threshold. -/
theorem C6_is_stale_event_policy :
    (is_stale_event (some 10) 5).1 = true ∧
    (is_stale_event (some 2) 5).1 = false ∧
    (∀ m : ℚ, (is_stale_event none m).1 = false) ∧
    (∀ d m : ℚ, ((is_stale_event (some d) m).1 = true ↔ m < d)) := by
  refine ⟨by decide, by decide, fun m => rfl, fun d m => ?_⟩
  simp [is_stale_event]

/-!  Association-list lemmas for the OrderedDict model. -/

section LedgerLemmas

variable {κ : Type} [DecidableEq κ]

theorem setKey_length_le (l : Ledger κ) (k : κ) (e : LedgerEntry) :
    (setKey l k e).length ≤ l.length + 1 := by
  induction l with
  | nil => simp [setKey]
  | cons p t ih =>
    obtain ⟨k0, e0⟩ := p
    by_cases h : k0 = k
    · simp [setKey, h]
    · simp only [setKey, if_neg h, List.length_cons]
      omega

theorem setKey_keys_of_contains (l : Ledger κ) (k : κ) (e : LedgerEntry)
    (h : containsKey l k = true) :
    (setKey l k e).map Prod.fst = l.map Prod.fst := by
  induction l with
  | nil => simp [containsKey, lookupEntry] at h
  | cons p t ih =>
    obtain ⟨k0, e0⟩ := p
    by_cases hk : k0 = k
    · simp [setKey, hk]
    · simp only [setKey, if_neg hk, List.map_cons]
      congr 1
      apply ih
      simpa [containsKey, lookupEntry, hk] using h

theorem lookup_setKey_ne (l : Ledger κ) (k k' : κ) (e : LedgerEntry)
    (h : k' ≠ k) : lookupEntry (setKey l k e) k' = lookupEntry l k' := by
  have hne : ¬(k = k') := fun hh => h hh.symm
  induction l with
  | nil =>
    simp only [setKey, lookupEntry]
    rw [if_neg hne]
  | cons p t ih =>
    obtain ⟨k0, e0⟩ := p
    by_cases hk : k0 = k
    · subst hk
      simp only [setKey, if_pos rfl, lookupEntry]
      rw [if_neg (fun hh : k0 = k' => h hh.symm), if_neg (fun hh : k0 = k' => h hh.symm)]
    · simp only [setKey, if_neg hk, lookupEntry]
      by_cases hk' : k0 = k'
      · simp [hk']
      · rw [if_neg hk', if_neg hk']
        exact ih

theorem lookup_none_of_not_mem_keys (l : Ledger κ) (k : κ)
    (h : k ∉ l.map Prod.fst) : lookupEntry l k = none := by
  induction l with
  | nil => rfl
  | cons p t ih =>
    obtain ⟨k0, e0⟩ := p
    simp only [List.map_cons, List.mem_cons] at h
    push_neg at h
    simp only [lookupEntry]
    rw [if_neg (fun hh : k0 = k => h.1 hh.symm)]
    exact ih h.2

theorem lookup_setKey_self (l : Ledger κ) (k : κ) (e : LedgerEntry) :
    lookupEntry (setKey l k e) k = some e := by
  induction l with
  | nil => simp [setKey, lookupEntry]
  | cons p t ih =>
    obtain ⟨k0, e0⟩ := p
    by_cases hk : k0 = k
    · simp [setKey, hk, lookupEntry]
    · simp only [setKey, if_neg hk, lookupEntry]
      exact ih

theorem lookup_drop_one (l : Ledger κ) (k : κ) (e : LedgerEntry)
    (hnd : (l.map Prod.fst).Nodup) (hl : lookupEntry l k = some e) :
    lookupEntry (l.drop 1) k = some e ∨ lookupEntry (l.drop 1) k = none := by
  cases l with
  | nil => simp [lookupEntry] at hl
  | cons p t =>
    obtain ⟨k0, e0⟩ := p
    simp only [List.drop_one, List.tail_cons]
    by_cases hk : k0 = k
    · right
      subst hk
      simp only [List.map_cons, List.nodup_cons] at hnd
      exact lookup_none_of_not_mem_keys t k0 hnd.1
    · left
      simpa only [lookupEntry, if_neg hk] using hl

theorem lookup_record_preserve (l : Ledger κ) (k k' : κ) (x e : LedgerEntry)
    (hnd : (l.map Prod.fst).Nodup) (hl : lookupEntry l k = some e)
    (hne : k ≠ k') :
    ∀ e', lookupEntry (recordEvent l k' x) k = some e' → e' = e := by
  intro e' h
  unfold recordEvent at h
  by_cases hcap : MAX_CACHE_SIZE ≤ l.length
  · rw [if_pos hcap, lookup_setKey_ne _ _ _ _ hne] at h
    rcases lookup_drop_one l k e hnd hl with h2 | h2 <;> rw [h2] at h
    · exact (Option.some.injEq _ _ ▸ h).symm
    · exact absurd h (by simp)
  · rw [if_neg hcap, lookup_setKey_ne _ _ _ _ hne, hl] at h
    exact (Option.some.injEq _ _ ▸ h).symm

end LedgerLemmas

section HandlerCases

variable {κ : Type} [DecidableEq κ]

/-- The ledger after one app.py handler run is either unchanged or, when
the duplicate guard did not fire, the record of {processed: False} under
the request event id. -/
theorem app_handler_ledger_cases (req : App.Request κ) (l : Ledger (Option κ)) :
    (App.handle_preview_request req l).ledger = l ∨
    (isProcessedIn l req.eventId = false ∧
     (App.handle_preview_request req l).ledger =
       recordEvent l req.eventId ⟨req.now, false⟩) := by
  unfold App.handle_preview_request
  by_cases h1 : isProcessedIn l req.eventId
  · left
    rw [if_pos h1]
  · rw [if_neg h1]
    by_cases h2 : (is_stale_event req.staleParse).1
    · right
      exact ⟨by simpa using h1, by rw [if_pos h2]⟩
    · rw [if_neg h2]
      by_cases h3 : req.eventId.isSome
      · right
        refine ⟨by simpa using h1, ?_⟩
        simp [h3]
      · left
        simp [h3]

/-- The ledger after one etsy_listener handler run is either unchanged
or, when the duplicate guard did not fire, the record of
{processed: False} under the request event id. -/
theorem etsy_handler_ledger_cases (smtpCreds : Bool) (req : Etsy.Request κ)
    (l : Ledger (Option κ)) :
    (Etsy.handle_preview_request smtpCreds req l).ledger = l ∨
    (isProcessedIn l req.eventId = false ∧
     (Etsy.handle_preview_request smtpCreds req l).ledger =
       recordEvent l req.eventId ⟨req.now, false⟩) := by
  unfold Etsy.handle_preview_request
  by_cases h1 : isProcessedIn l req.eventId
  · left
    rw [if_pos h1]
  · rw [if_neg h1]
    by_cases h2 : Etsy.staleCheck req.staleParse
    · right
      exact ⟨by simpa using h1, by rw [if_pos h2]⟩
    · rw [if_neg h2]
      by_cases h3 : Etsy.fieldTruthy req.fields Etsy.logoLabel
      · simp only [h3, Bool.not_true, Bool.false_eq_true, if_false]
        by_cases h4 : req.templateOk
        · simp only [h4, Bool.not_true, Bool.false_eq_true, if_false]
          cases h5 : Etsy.send_email_preview smtpCreds with
          | error u =>
            by_cases h6 : req.eventId.isSome
            · right
              refine ⟨by simpa using h1, ?_⟩
              simp [h6]
            · left
              simp [h6]
          | ok b => left; rfl
        · simp only [h4, Bool.not_false, if_true]
          left
          trivial
      · simp only [h3, Bool.not_false, if_true]
        left
        trivial

end HandlerCases

/-- C4: counterexample to the claim that recording an id that is already
present evicts nothing.  With the ledger at capacity (100 entries, ids
0..99) and id 5 already present, the record pattern still pops the
oldest entry first: after recording id 5 again, id 0 is gone. -/
theorem C4_counterexample_overwrite_evicts :
    ledger100.length = 100 ∧ containsKey ledger100 5 = true ∧
    containsKey (recordEvent ledger100 5 ⟨200, true⟩) 0 = false := by
  exact ⟨by decide, by decide, by decide⟩

/-- C4 (amended): every record operation keeps the ledger at no more
than MAX_CACHE_SIZE = 100 entries; below capacity, recording a present
id overwrites it in place and evicts nothing; but at capacity the single
oldest-inserted entry is evicted unconditionally, whether or not the id
being recorded is new — in particular (last conjunct) the oldest entry
disappears whenever it is not itself the id being recorded. -/
theorem C4_record_capacity_and_eviction {κ : Type} [DecidableEq κ]
    (l : Ledger κ) (k : κ) (e : LedgerEntry) :
    (l.length ≤ MAX_CACHE_SIZE → (recordEvent l k e).length ≤ MAX_CACHE_SIZE) ∧
    (l.length < MAX_CACHE_SIZE → containsKey l k = true →
      (recordEvent l k e).map Prod.fst = l.map Prod.fst) ∧
    (MAX_CACHE_SIZE ≤ l.length → recordEvent l k e = setKey (l.drop 1) k e) ∧
    (∀ k0 e0, MAX_CACHE_SIZE ≤ l.length → (l.map Prod.fst).Nodup →
      l.head? = some (k0, e0) → k0 ≠ k →
      containsKey (recordEvent l k e) k0 = false) := by
  have hM : MAX_CACHE_SIZE = 100 := rfl
  refine ⟨?_, ?_, ?_, ?_⟩
  · intro hle
    unfold recordEvent
    by_cases hcap : MAX_CACHE_SIZE ≤ l.length
    · rw [if_pos hcap]
      have h1 := setKey_length_le (l.drop 1) k e
      have h2 : (l.drop 1).length = l.length - 1 := by simp
      omega
    · rw [if_neg hcap]
      have h1 := setKey_length_le l k e
      omega
  · intro hlt hc
    unfold recordEvent
    rw [if_neg (by omega)]
    exact setKey_keys_of_contains l k e hc
  · intro hcap
    unfold recordEvent
    rw [if_pos hcap]
  · intro k0 e0 hcap hnd hhead hne
    obtain ⟨t, rfl⟩ : ∃ t, l = (k0, e0) :: t := by
      cases l with
      | nil => simp at hhead
      | cons p t =>
        simp only [List.head?_cons, Option.some.injEq] at hhead
        exact ⟨t, by rw [hhead]⟩
    have hnd2 : (k0 :: t.map Prod.fst).Nodup := by simpa using hnd
    have hk0 : k0 ∉ t.map Prod.fst := (List.nodup_cons.mp hnd2).1
    unfold recordEvent
    rw [if_pos hcap]
    simp only [List.drop_one, List.tail_cons]
    unfold containsKey
    rw [lookup_setKey_ne _ _ _ _ hne]
    rw [lookup_none_of_not_mem_keys t k0 hk0]
    rfl

/-- C4 witness: the amended behaviour at concrete inputs — an overwrite
below capacity keeps the key set, and at capacity recording a fresh id
into the full ledger of ids 0..99 evicts id 0. -/
theorem C4_record_witness :
    (recordEvent [((1 : Nat), ⟨0, false⟩)] 1 ⟨5, true⟩).map Prod.fst = [1] ∧
    containsKey (recordEvent ledger100 100 ⟨200, false⟩) 0 = false := by
  constructor
  · exact (C4_record_capacity_and_eviction [((1 : Nat), ⟨0, false⟩)] 1
      ⟨5, true⟩).2.1 (by decide) (by decide)
  · exact (C4_record_capacity_and_eviction ledger100 100
      ⟨200, false⟩).2.2.2 0 ⟨0, false⟩ (by decide) (by decide) (by decide)
      (by decide)

/-- C5: once an entry for an event id has processed=True, a delivery of
that id short-circuits with success (204), leaving the ledger unchanged
and making no collaborator call, in both webhook handler variants (first
two conjuncts); and no handler run ever rewrites a processed=True entry:
whatever the request, if the id still has an entry afterwards it is the
same unmodified entry (last two conjuncts; capacity eviction can remove
the entry, but nothing overwrites it back to processed=False). -/
theorem C5_processed_true_is_terminal {κ : Type} [DecidableEq κ]
    (req : App.Request κ) (ereq : Etsy.Request κ) (smtpCreds : Bool)
    (l : Ledger (Option κ)) (k : κ) (e : LedgerEntry) :
    (req.eventId = some k → lookupEntry l (some k) = some e →
      e.processed = true →
      App.handle_preview_request req l = ⟨.noContent, l, []⟩) ∧
    (ereq.eventId = some k → lookupEntry l (some k) = some e →
      e.processed = true →
      Etsy.handle_preview_request smtpCreds ereq l = ⟨.noContent, l, []⟩) ∧
    ((l.map Prod.fst).Nodup → lookupEntry l (some k) = some e →
      e.processed = true → ∀ e',
      lookupEntry (App.handle_preview_request req l).ledger (some k) = some e' →
      e' = e) ∧
    ((l.map Prod.fst).Nodup → lookupEntry l (some k) = some e →
      e.processed = true → ∀ e',
      lookupEntry (Etsy.handle_preview_request smtpCreds ereq l).ledger (some k) =
        some e' → e' = e) := by
  have hproc : ∀ (eid : Option κ), eid = some k →
      lookupEntry l (some k) = some e → e.processed = true →
      isProcessedIn l eid = true := by
    intro eid heid hl hp
    subst heid
    unfold isProcessedIn
    rw [hl]
    exact hp
  have hne_of : ∀ (eid : Option κ), isProcessedIn l eid = false →
      lookupEntry l (some k) = some e → e.processed = true →
      (some k : Option κ) ≠ eid := by
    intro eid hg hl hp hEq
    rw [← hEq] at hg
    unfold isProcessedIn at hg
    rw [hl] at hg
    simp [hp] at hg
  refine ⟨?_, ?_, ?_, ?_⟩
  · intro heid hl hp
    unfold App.handle_preview_request
    rw [if_pos (hproc _ heid hl hp)]
  · intro heid hl hp
    unfold Etsy.handle_preview_request
    rw [if_pos (hproc _ heid hl hp)]
  · intro hnd hl hp e' h
    rcases app_handler_ledger_cases req l with hc | ⟨hg, hc⟩
    · rw [hc, hl] at h
      exact (Option.some.inj h).symm
    · rw [hc] at h
      exact lookup_record_preserve l (some k) req.eventId ⟨req.now, false⟩ e
        hnd hl (hne_of _ hg hl hp) e' h
  · intro hnd hl hp e' h
    rcases etsy_handler_ledger_cases smtpCreds ereq l with hc | ⟨hg, hc⟩
    · rw [hc, hl] at h
      exact (Option.some.inj h).symm
    · rw [hc] at h
      exact lookup_record_preserve l (some k) ereq.eventId ⟨ereq.now, false⟩ e
        hnd hl (hne_of _ hg hl hp) e' h

/-- C5 witness: at a concrete ledger holding id 1 with processed=True,
both handlers respond 204 and change nothing. -/
theorem C5_terminal_witness :
    App.handle_preview_request (κ := Nat) ⟨some 1, some 10, 5, []⟩
      [(some 1, ⟨0, true⟩)] = ⟨.noContent, [(some 1, ⟨0, true⟩)], []⟩ ∧
    Etsy.handle_preview_request (κ := Nat) true ⟨some 1, some 10, 5, [], true⟩
      [(some 1, ⟨0, true⟩)] = ⟨.noContent, [(some 1, ⟨0, true⟩)], []⟩ := by
  constructor
  · exact (C5_processed_true_is_terminal ⟨some 1, some 10, 5, []⟩
      ⟨some 1, some 10, 5, [], true⟩ true [(some 1, ⟨0, true⟩)] 1
      ⟨0, true⟩).1 rfl (by decide) rfl
  · exact (C5_processed_true_is_terminal ⟨some 1, some 10, 5, []⟩
      ⟨some 1, some 10, 5, [], true⟩ true [(some 1, ⟨0, true⟩)] 1
      ⟨0, true⟩).2.1 rfl (by decide) rfl

/-- C10: in the app.py /preview_webhook handler the success outcome is
unreachable.  First conjunct: every request that passes the duplicate
and staleness checks ends in the exception branch (line 903 reads the
never-assigned logo_bytes), returning 500 and recording
{processed: False} when the event id is present (for a missing id the
except branch skips the record).  Second conjunct: a 204 response can
only come from the duplicate or the stale path, so no run ever pairs a
204 with a fresh processed=True entry. -/
theorem C10_app_success_unreachable {κ : Type} [DecidableEq κ]
    (req : App.Request κ) (l : Ledger (Option κ)) :
    (isProcessedIn l req.eventId = false →
      (is_stale_event req.staleParse).1 = false →
      App.handle_preview_request req l =
        ⟨.serverError,
         if req.eventId.isSome then recordEvent l req.eventId ⟨req.now, false⟩
         else l,
         []⟩) ∧
    ((App.handle_preview_request req l).resp = .noContent →
      isProcessedIn l req.eventId = true ∨
      (is_stale_event req.staleParse).1 = true) := by
  constructor
  · intro h1 h2
    unfold App.handle_preview_request
    rw [if_neg (by simp [h1]), if_neg (by simp [h2])]
  · intro h
    by_cases h1 : isProcessedIn l req.eventId
    · exact Or.inl h1
    · by_cases h2 : (is_stale_event req.staleParse).1
      · exact Or.inr h2
      · unfold App.handle_preview_request at h
        rw [if_neg h1, if_neg h2] at h
        exact absurd h (by simp)

/-- C10 witness: a concrete fresh, non-stale request with an event id
gets a 500 and a processed=False record. -/
theorem C10_app_witness :
    App.handle_preview_request (κ := Nat) ⟨some 1, none, 9, []⟩ [] =
      ⟨.serverError, [(some 1, ⟨9, false⟩)], []⟩ := by
  have h := (C10_app_success_unreachable (κ := Nat) ⟨some 1, none, 9, []⟩ []).1
    (by decide) (by decide)
  exact h.trans (by decide)

/-- C7: counterexample to the claim that a non-duplicate, non-stale
delivery with the logo field missing gets a 400 and no ledger write.
In the app.py handler variant a request whose payload has no logo field
(here: a field list with only an Email entry) instead gets a 500, and an
entry for its event id is written with processed=False, because the
handler crashes on the commented-out logo_bytes before any logo check. -/
theorem C7_counterexample_app_missing_logo :
    (App.handle_preview_request (κ := Nat)
      ⟨some 7, some 2, 3, [(codes "Email", some (codes "a@b.c"))]⟩ []).resp =
      Resp.serverError ∧
    lookupEntry (App.handle_preview_request (κ := Nat)
      ⟨some 7, some 2, 3, [(codes "Email", some (codes "a@b.c"))]⟩ []).ledger
      (some 7) = some ⟨3, false⟩ := by
  exact ⟨by decide, by decide⟩

/-- C7 (amended): in the etsy_listener handler variant the claim holds:
a non-duplicate, non-stale delivery whose logo field is missing or empty
is answered with 400, the ledger is untouched, and no collaborator call
is made; the app.py variant instead fails with 500 and does record the
event id (see the counterexample). -/
theorem C7_etsy_missing_logo_400_no_write {κ : Type} [DecidableEq κ]
    (smtpCreds : Bool) (req : Etsy.Request κ) (l : Ledger (Option κ)) :
    isProcessedIn l req.eventId = false →
    Etsy.staleCheck req.staleParse = false →
    Etsy.fieldTruthy req.fields Etsy.logoLabel = false →
    Etsy.handle_preview_request smtpCreds req l = ⟨.clientError, l, []⟩ := by
  intro h1 h2 h3
  unfold Etsy.handle_preview_request
  rw [if_neg (by simp [h1]), if_neg (by simp [h2])]
  rw [h3]
  rfl

/-- C7 witness: a concrete fresh delivery without a logo field gets 400
and leaves the ledger unchanged in the etsy_listener handler. -/
theorem C7_etsy_witness :
    Etsy.handle_preview_request (κ := Nat) true
      ⟨some 7, some 2, 3, [(codes "Email", some (codes "a@b.c"))], true⟩
      [(some 9, ⟨0, false⟩)] =
      ⟨.clientError, [(some 9, ⟨0, false⟩)], []⟩ := by
  exact C7_etsy_missing_logo_400_no_write true
    ⟨some 7, some 2, 3, [(codes "Email", some (codes "a@b.c"))], true⟩
    [(some 9, ⟨0, false⟩)] (by decide) (by decide) (by decide)

/-- C8: counterexample to the claim that no ledger entry is recorded for
a missing event id.  A stale request whose payload has no eventId is
recorded in the app.py handler under the null id: starting from an empty
ledger the run returns 204 and leaves the entry (None, processed=False)
in PROCESSED_EVENTS, because the stale-path write is not guarded by
`if event_id`. -/
theorem C8_counterexample_missing_id_recorded :
    App.handle_preview_request (κ := Nat) ⟨none, some 10, 3, []⟩ [] =
      ⟨.noContent, [(none, ⟨3, false⟩)], []⟩ := by
  decide

/-- C8 (amended): for a request without an event id the app.py handler
skips the duplicate short-circuit only while no null-id entry with
processed=True exists, and skips idempotency tracking only on the
processing (exception) path: a stale missing-id request does record an
entry under the null id (first conjunct), a missing-id request that
reaches processing returns 500 without recording (second conjunct), and
a missing-id request is short-circuited as a duplicate exactly when a
null-id entry with processed=True is present (third conjunct). -/
theorem C8_missing_id_tracking {κ : Type} [DecidableEq κ]
    (req : App.Request κ) (l : Ledger (Option κ)) :
    req.eventId = none →
    ((isProcessedIn l none = false → (is_stale_event req.staleParse).1 = true →
       App.handle_preview_request req l =
         ⟨.noContent, recordEvent l none ⟨req.now, false⟩, []⟩) ∧
     (isProcessedIn l none = false → (is_stale_event req.staleParse).1 = false →
       App.handle_preview_request req l = ⟨.serverError, l, []⟩) ∧
     (isProcessedIn l none = true →
       App.handle_preview_request req l = ⟨.noContent, l, []⟩)) := by
  intro hid
  refine ⟨?_, ?_, ?_⟩
  · intro h1 h2
    unfold App.handle_preview_request
    rw [hid]
    rw [if_neg (by simp [h1]), if_pos h2]
  · intro h1 h2
    unfold App.handle_preview_request
    rw [hid]
    rw [if_neg (by simp [h1]), if_neg (by simp [h2])]
    simp
  · intro h1
    unfold App.handle_preview_request
    rw [hid]
    rw [if_pos h1]

/-- C8 witness: concrete instances of the three missing-id behaviours —
stale records under the null id, processing returns 500 without a
record, and a present null-id processed=True entry short-circuits. -/
theorem C8_missing_id_witness :
    App.handle_preview_request (κ := Nat) ⟨none, some 8, 4, []⟩
      [(some 2, ⟨0, false⟩)] =
      ⟨.noContent, [(some 2, ⟨0, false⟩), (none, ⟨4, false⟩)], []⟩ ∧
    App.handle_preview_request (κ := Nat) ⟨none, some 3, 4, []⟩ [] =
      ⟨.serverError, [], []⟩ ∧
    App.handle_preview_request (κ := Nat) ⟨none, some 8, 4, []⟩
      [(none, ⟨0, true⟩)] = ⟨.noContent, [(none, ⟨0, true⟩)], []⟩ := by
  refine ⟨?_, ?_, ?_⟩
  · exact ((C8_missing_id_tracking ⟨none, some 8, 4, []⟩
      [(some 2, ⟨0, false⟩)] rfl).1 (by decide) (by decide)).trans (by decide)
  · exact (C8_missing_id_tracking ⟨none, some 3, 4, []⟩ [] rfl).2.1
      (by decide) (by decide)
  · exact (C8_missing_id_tracking ⟨none, some 8, 4, []⟩
      [(none, ⟨0, true⟩)] rfl).2.2 (by decide)

/-- C9: counterexample to the claim that the poller retries every order
whose ledger entry has processed=False.  With PROCESSED_ORDERS holding
order 11 as processed=False (an order that previously failed brand
resolution), a new poll of the same order is skipped outright: the
ledger is unchanged and no collaborator call is made, because the line
633 guard tests only membership, not the processed flag. -/
theorem C9_counterexample_false_entry_skipped :
    EtsyOrders.process_etsy_order (κ := Nat) true
      ⟨11, none, none, true, true, true, 5⟩ [(11, ⟨0, false⟩)] =
      ⟨[(11, ⟨0, false⟩)], []⟩ := by
  decide

/-- C9 (amended): the poller skips an order exactly when any ledger
entry for its id exists, whatever the processed flag (first conjunct:
ledger unchanged and no collaborator call); only an order with no entry
at all is attempted (second conjunct: the run makes at least one
collaborator call). -/
theorem C9_poller_skips_any_present_entry {κ : Type} [DecidableEq κ]
    (smtpCreds : Bool) (r : EtsyOrders.Receipt κ) (orders : Ledger κ) :
    (containsKey orders r.orderId = true →
      EtsyOrders.process_etsy_order smtpCreds r orders = ⟨orders, []⟩) ∧
    (containsKey orders r.orderId = false →
      (EtsyOrders.process_etsy_order smtpCreds r orders).calls ≠ []) := by
  constructor
  · intro h
    unfold EtsyOrders.process_etsy_order
    rw [if_pos h]
  · intro h
    unfold EtsyOrders.process_etsy_order
    rw [if_neg (by simp [h])]
    cases hnb : r.noteBrandId with
    | none =>
      cases hem : r.emailMatch with
      | none => simp
      | some b =>
        by_cases hbd : r.brandDataOk
        · by_cases hop : r.orderPageOk
          · by_cases ht : r.templateOk
            · cases hse : EtsyOrders.send_email_licensed smtpCreds <;>
                simp [hbd, hop, ht, hse]
            · simp [hbd, hop, ht]
          · simp [hbd, hop]
        · simp [hbd]
    | some b =>
      by_cases hbd : r.brandDataOk
      · by_cases hop : r.orderPageOk
        · by_cases ht : r.templateOk
          · cases hse : EtsyOrders.send_email_licensed smtpCreds <;>
              simp [hbd, hop, ht, hse]
          · simp [hbd, hop, ht]
        · simp [hbd, hop]
      · simp [hbd]

/-- C9 witness: a concrete order whose entry is processed=True is
skipped with no calls made. -/
theorem C9_poller_witness :
    EtsyOrders.process_etsy_order (κ := Nat) true
      ⟨3, some (codes "BRAND-ACDS-0670"), none, true, true, true, 9⟩
      [(3, ⟨1, true⟩)] = ⟨[(3, ⟨1, true⟩)], []⟩ := by
  exact (C9_poller_skips_any_present_entry true
    ⟨3, some (codes "BRAND-ACDS-0670"), none, true, true, true, 9⟩
    [(3, ⟨1, true⟩)]).1 (by decide)

/-!  Lemmas towards the Brand ID format theorem (C2). -/

theorem toUpperCp_upper {c : Nat} (h : isAlphaCp c = true) :
    isUpperCp (toUpperCp c) = true := by
  simp only [isAlphaCp, Bool.or_eq_true, Bool.and_eq_true, decide_eq_true_eq] at h
  simp only [toUpperCp, isUpperCp, Bool.and_eq_true, decide_eq_true_eq]
  by_cases hc : 97 ≤ c ∧ c ≤ 122
  · rw [if_pos (by simp [hc.1, hc.2])]
    omega
  · rw [if_neg (by simpa using fun h1 h2 => hc ⟨h1, h2⟩)]
    omega

theorem padChars_upper {c : Nat} (h : c ∈ padChars) : isUpperCp c = true := by
  simp only [padChars, List.mem_cons, List.not_mem_nil, or_false] at h
  rcases h with rfl | rfl | rfl <;> decide

theorem padChars_getD_mem (i : Nat) : padChars.getD (i % 3) 88 ∈ padChars := by
  have h3 : i % 3 = 0 ∨ i % 3 = 1 ∨ i % 3 = 2 := by omega
  rcases h3 with h3 | h3 | h3 <;> simp [h3, padChars]

theorem decimalDigitsAux_digits : ∀ fuel n, ∀ c ∈ decimalDigitsAux fuel n,
    isDigitCp c = true := by
  intro fuel
  induction fuel with
  | zero =>
    intro n c hc
    simp only [decimalDigitsAux, List.mem_singleton] at hc
    subst hc
    simp only [isDigitCp, Bool.and_eq_true, decide_eq_true_eq]
    omega
  | succ f ih =>
    intro n c hc
    simp only [decimalDigitsAux] at hc
    by_cases hn : n < 10
    · rw [if_pos hn] at hc
      simp only [List.mem_singleton] at hc
      subst hc
      simp only [isDigitCp, Bool.and_eq_true, decide_eq_true_eq]
      omega
    · rw [if_neg hn] at hc
      rcases List.mem_append.mp hc with h | h
      · exact ih _ c h
      · simp only [List.mem_singleton] at h
        subst h
        simp only [isDigitCp, Bool.and_eq_true, decide_eq_true_eq]
        omega

theorem decimalDigitsAux_ne_nil (fuel n : Nat) :
    decimalDigitsAux fuel n ≠ [] := by
  cases fuel with
  | zero => simp [decimalDigitsAux]
  | succ f =>
    simp only [decimalDigitsAux]
    by_cases hn : n < 10
    · rw [if_pos hn]
      simp
    · rw [if_neg hn]
      simp

theorem zfill4_props (ds : List Nat) (h1 : 1 ≤ ds.length)
    (hd : ∀ c ∈ ds, isDigitCp c = true) :
    (List.replicate (4 - (ds.drop (ds.length - 4)).length) 48 ++
      ds.drop (ds.length - 4)).length = 4 ∧
    ∀ c ∈ List.replicate (4 - (ds.drop (ds.length - 4)).length) 48 ++
      ds.drop (ds.length - 4), isDigitCp c = true := by
  have hlen : (ds.drop (ds.length - 4)).length = ds.length - (ds.length - 4) := by
    simp
  constructor
  · simp only [List.length_append, List.length_replicate]
    omega
  · intro c hc
    rcases List.mem_append.mp hc with h | h
    · rw [List.eq_of_mem_replicate h]
      decide
    · exact hd c (List.mem_of_mem_drop h)

theorem emailPartCodes_len_digits (em : List Nat) :
    (App.generate_brand_id.emailPartCodes em).length = 4 ∧
    ∀ c ∈ App.generate_brand_id.emailPartCodes em, isDigitCp c = true := by
  unfold App.generate_brand_id.emailPartCodes
  refine zfill4_props _ ?_ ?_
  · have hne := decimalDigitsAux_ne_nil (em.foldl (· + ·) 0) (em.foldl (· + ·) 0)
    cases hcase : decimalDigitsAux (em.foldl (· + ·) 0) (em.foldl (· + ·) 0) with
    | nil => exact absurd hcase hne
    | cons a t =>
      unfold decimalDigits
      simp [hcase]
  · exact decimalDigitsAux_digits _ _

theorem mem_takeWhile_pred {α : Type} (p : α → Bool) :
    ∀ (l : List α) (a : α), a ∈ l.takeWhile p → p a = true := by
  intro l
  induction l with
  | nil => intro a h; simp [List.takeWhile] at h
  | cons b t ih =>
    intro a h
    simp only [List.takeWhile] at h
    cases hb : p b with
    | false => rw [hb] at h; simp at h
    | true =>
      rw [hb] at h
      rcases List.mem_cons.mp h with rfl | h2
      · exact hb
      · exact ih a h2

/-- A string whose strip is empty is all whitespace. -/
theorem all_ws_of_stripWs_nil {s : List Nat} (h : stripWs s = []) :
    ∀ c ∈ s, isWsCp c = true := by
  unfold stripWs at h
  rw [List.reverse_eq_nil_iff] at h
  rw [List.dropWhile_eq_nil_iff] at h
  intro c hc
  rcases List.mem_append.mp
    ((List.takeWhile_append_dropWhile (p := isWsCp) (l := s)) ▸ hc) with h1 | h1
  · exact mem_takeWhile_pred isWsCp s c h1
  · exact h c (by simpa using h1)

/-- Words produced by the splitter: each is non-empty and consists of
non-whitespace characters of the input (stated for any predicate P that
holds for the non-whitespace characters). -/
theorem splitWsAux_words (P : Nat → Prop) :
    ∀ (s acc : List Nat), (∀ c ∈ s, isWsCp c = false → P c) →
    (∀ c ∈ acc, P c) →
    ∀ w ∈ splitWsAux s acc, w ≠ [] ∧ ∀ c ∈ w, P c := by
  intro s
  induction s with
  | nil =>
    intro acc hs hacc w hw
    simp only [splitWsAux] at hw
    by_cases ha : acc = []
    · rw [if_pos ha] at hw
      simp at hw
    · rw [if_neg ha] at hw
      simp only [List.mem_singleton] at hw
      subst hw
      exact ⟨by simpa using ha, fun c hc => hacc c (List.mem_reverse.mp hc)⟩
  | cons c rest ih =>
    intro acc hs hacc w hw
    simp only [splitWsAux] at hw
    by_cases hws : isWsCp c
    · rw [if_pos hws] at hw
      by_cases ha : acc = []
      · rw [if_pos ha] at hw
        exact ih [] (fun d hd => hs d (List.mem_cons_of_mem c hd)) (by simp) w hw
      · rw [if_neg ha] at hw
        rcases List.mem_cons.mp hw with rfl | hw2
        · exact ⟨by simpa using ha, fun d hd => hacc d (List.mem_reverse.mp hd)⟩
        · exact ih [] (fun d hd => hs d (List.mem_cons_of_mem c hd)) (by simp) w hw2
    · rw [if_neg hws] at hw
      refine ih (c :: acc) (fun d hd => hs d (List.mem_cons_of_mem c hd)) ?_ w hw
      intro d hd
      rcases List.mem_cons.mp hd with rfl | hd2
      · exact hs d (by simp) (by simpa using hws)
      · exact hacc d hd2

theorem headD_mem {w : List Nat} (h : w ≠ []) : w.headD 0 ∈ w := by
  cases w with
  | nil => exact absurd rfl h
  | cons a t => simp

theorem padStep_inv (np used : List Nat) (hlen : np.length < 4)
    (hup : ∀ c ∈ np, isUpperCp c = true) :
    (padStep np used).1.length ≤ 4 ∧
    ∀ c ∈ (padStep np used).1, isUpperCp c = true := by
  unfold padStep
  cases hfind : padChars.find? (fun p => !hasN used p) with
  | none => exact ⟨Nat.le_of_lt hlen, hup⟩
  | some p =>
    have hp : p ∈ padChars := List.mem_of_find?_eq_some hfind
    constructor
    · simp only [List.length_append, List.length_singleton]
      omega
    · intro c hc
      rcases List.mem_append.mp hc with h | h
      · exact hup c h
      · simp only [List.mem_singleton] at h
        subst h
        exact padChars_upper hp

theorem appWordLoop_inv : ∀ (words : List (List Nat)) (np used : List Nat),
    (∀ w ∈ words, w ≠ [] ∧ ∀ c ∈ w, isAlphaCp c = true) →
    np.length ≤ 4 → (∀ c ∈ np, isUpperCp c = true) →
    (App.appWordLoop words np used).1.length ≤ 4 ∧
    ∀ c ∈ (App.appWordLoop words np used).1, isUpperCp c = true := by
  intro words
  induction words with
  | nil =>
    intro np used hw hlen hup
    simpa only [App.appWordLoop] using ⟨hlen, hup⟩
  | cons w ws ih =>
    intro np used hw hlen hup
    have hwhead := hw w (by simp)
    have hwtail : ∀ v ∈ ws, v ≠ [] ∧ ∀ c ∈ v, isAlphaCp c = true :=
      fun v hv => hw v (List.mem_cons_of_mem w hv)
    simp only [App.appWordLoop]
    by_cases h4 : 4 ≤ np.length
    · rw [if_pos h4]
      exact ⟨hlen, hup⟩
    · rw [if_neg h4]
      have hiniUp : isUpperCp (toUpperCp (w.headD 0)) = true :=
        toUpperCp_upper (hwhead.2 _ (headD_mem hwhead.1))
    -- facts about the state after the initial step, under each branch
      by_cases hused : hasN used (toUpperCp (w.headD 0)) = true
      · rw [if_pos hused]
        dsimp only
        by_cases h4b : 4 ≤ np.length
        · exact absurd h4b h4
        · rw [if_neg h4b]
          cases hfind : w.find? (fun c => isAlphaCp c && !isVowelCp c &&
              !hasN used (toUpperCp c)) with
          | some c =>
            have hcAlpha : isAlphaCp c = true := by
              have := List.find?_some hfind
              simp only [Bool.and_eq_true] at this
              exact this.1.1
            refine ih (np ++ [toUpperCp c]) _ hwtail ?_ ?_
            · simp only [List.length_append, List.length_singleton]
              omega
            · intro d hd
              rcases List.mem_append.mp hd with h | h
              · exact hup d h
              · simp only [List.mem_singleton] at h
                subst h
                exact toUpperCp_upper hcAlpha
          | none =>
            rw [if_pos (by omega)]
            have hps := padStep_inv np used (by omega) hup
            exact ih _ _ hwtail (hps.1) (hps.2)
      · rw [if_neg hused]
        dsimp only
        have hlen1 : (np ++ [toUpperCp (w.headD 0)]).length ≤ 4 := by
          simp only [List.length_append, List.length_singleton]
          omega
        have hup1 : ∀ c ∈ np ++ [toUpperCp (w.headD 0)], isUpperCp c = true := by
          intro d hd
          rcases List.mem_append.mp hd with h | h
          · exact hup d h
          · simp only [List.mem_singleton] at h
            subst h
            exact hiniUp
        by_cases h4b : 4 ≤ (np ++ [toUpperCp (w.headD 0)]).length
        · rw [if_pos h4b]
          exact ⟨hlen1, hup1⟩
        · rw [if_neg h4b]
          cases hfind : w.find? (fun c => isAlphaCp c && !isVowelCp c &&
              !hasN (toUpperCp (w.headD 0) :: used) (toUpperCp c)) with
          | some c =>
            have hcAlpha : isAlphaCp c = true := by
              have := List.find?_some hfind
              simp only [Bool.and_eq_true] at this
              exact this.1.1
            refine ih _ _ hwtail ?_ ?_
            · simp only [List.length_append, List.length_singleton] at h4b ⊢
              omega
            · intro d hd
              rcases List.mem_append.mp hd with h | h
              · exact hup1 d h
              · simp only [List.mem_singleton] at h
                subst h
                exact toUpperCp_upper hcAlpha
          | none =>
            rw [if_pos (by simp only [List.length_append, List.length_singleton] at h4b ⊢; omega)]
            have hps := padStep_inv (np ++ [toUpperCp (w.headD 0)])
              (toUpperCp (w.headD 0) :: used)
              (by simp only [List.length_append, List.length_singleton] at h4b ⊢; omega) hup1
            exact ih _ _ hwtail (hps.1) (hps.2)

theorem padUsed_some_inv : ∀ (fuel : Nat) (np used : List Nat) (i : Nat)
    (out : List Nat), padUsed fuel np used i = some out →
    np.length ≤ 4 → (∀ c ∈ np, isUpperCp c = true) →
    out.length = 4 ∧ ∀ c ∈ out, isUpperCp c = true := by
  intro fuel
  induction fuel with
  | zero =>
    intro np used i out h hlen hup
    simp only [padUsed] at h
    by_cases h4 : 4 ≤ np.length
    · rw [if_pos h4] at h
      obtain rfl : np = out := Option.some.inj h
      exact ⟨by omega, hup⟩
    · rw [if_neg h4] at h
      exact absurd h (by simp)
  | succ f ih =>
    intro np used i out h hlen hup
    simp only [padUsed] at h
    by_cases h4 : 4 ≤ np.length
    · rw [if_pos h4] at h
      obtain rfl : np = out := Option.some.inj h
      exact ⟨by omega, hup⟩
    · rw [if_neg h4] at h
      have hpmem := padChars_getD_mem i
      by_cases hused : hasN used (padChars.getD (i % 3) 88) = true
      · rw [if_pos hused] at h
        exact ih np used (i + 1) out h hlen hup
      · rw [if_neg hused] at h
        refine ih _ _ (i + 1) out h ?_ ?_
        · simp only [List.length_append, List.length_singleton]
          omega
        · intro d hd
          rcases List.mem_append.mp hd with hh | hh
          · exact hup d hh
          · simp only [List.mem_singleton] at hh
            subst hh
            exact padChars_upper hpmem

theorem alpha_not_ws {c : Nat} (h : isAlphaCp c = true) : isWsCp c = false := by
  simp only [isAlphaCp, Bool.or_eq_true, Bool.and_eq_true, decide_eq_true_eq] at h
  rcases h with h | h <;> simp [isWsCp] <;> omega

theorem matches_format_build (np ep : List Nat) (h1 : np.length = 4)
    (h2 : ∀ c ∈ np, isUpperCp c = true) (h3 : ep.length = 4)
    (h4 : ∀ c ∈ ep, isDigitCp c = true) :
    matchesBrandIdFormat (codes "BRAND-" ++ np ++ 45 :: ep) = true := by
  obtain ⟨x1, x2, x3, x4, rfl⟩ : ∃ a b c d, np = [a, b, c, d] := by
    cases np with
    | nil => simp at h1
    | cons a t1 =>
      cases t1 with
      | nil => simp at h1
      | cons b t2 =>
        cases t2 with
        | nil => simp at h1
        | cons c t3 =>
          cases t3 with
          | nil => simp at h1
          | cons d t4 =>
            cases t4 with
            | nil => exact ⟨a, b, c, d, rfl⟩
            | cons e t5 =>
              exfalso
              simp only [List.length_cons] at h1
              omega
  obtain ⟨y1, y2, y3, y4, rfl⟩ : ∃ a b c d, ep = [a, b, c, d] := by
    cases ep with
    | nil => simp at h3
    | cons a t1 =>
      cases t1 with
      | nil => simp at h3
      | cons b t2 =>
        cases t2 with
        | nil => simp at h3
        | cons c t3 =>
          cases t3 with
          | nil => simp at h3
          | cons d t4 =>
            cases t4 with
            | nil => exact ⟨a, b, c, d, rfl⟩
            | cons e t5 =>
              exfalso
              simp only [List.length_cons] at h3
              omega
  have hx1 := h2 x1 (by simp)
  have hx2 := h2 x2 (by simp)
  have hx3 := h2 x3 (by simp)
  have hx4 := h2 x4 (by simp)
  have hy1 := h4 y1 (by simp)
  have hy2 := h4 y2 (by simp)
  have hy3 := h4 y3 (by simp)
  have hy4 := h4 y4 (by simp)
  show matchesBrandIdFormat
    [66, 82, 65, 78, 68, 45, x1, x2, x3, x4, 45, y1, y2, y3, y4] = true
  simp [matchesBrandIdFormat, hx1, hx2, hx3, hx4, hy1, hy2, hy3, hy4]

/-- C2: counterexample to the universally quantified format claim.  A
business name made of digits has no consonant, so the no-consonant
branch copies its first four characters verbatim into the name segment:
generate_brand_id("1234", "x@y.com") terminates and returns
BRAND-1234-0670, whose middle segment is not four uppercase letters. -/
theorem C2_counterexample_digit_name :
    App.generate_brand_id 10 (codes "1234") (codes "x@y.com") =
      some (codes "BRAND-1234-0670") ∧
    matchesBrandIdFormat (codes "BRAND-1234-0670") = false := by
  exact ⟨by decide, by decide⟩

/-- C2 (amended): the email segment is always exactly four decimal
digits, and the full BRAND-XXXX-NNNN shape holds for every run that
terminates on a business name consisting of ASCII letters and spaces
with at least one consonant; names outside that fragment can leak
digits, punctuation or spaces into the name segment (see the
counterexample), and some runs do not terminate at all (claim C1). -/
theorem C2_brand_id_format_for_letter_names :
    ∀ (fuel : Nat) (bn em out : List Nat),
    App.generate_brand_id fuel bn em = some out →
    (∀ c ∈ bn, isAlphaCp c = true ∨ isWsCp c = true) →
    (∃ c ∈ bn, isAlphaCp c = true ∧ isVowelCp c = false) →
    matchesBrandIdFormat out = true := by
  intro fuel bn em out hgen hchar hex
  obtain ⟨c0, hc0mem, hc0alpha, hc0cons⟩ := hex
  have hbn_ne : bn ≠ [] := by
    intro h
    subst h
    simp at hc0mem
  have hc0ws : isWsCp c0 = false := alpha_not_ws hc0alpha
  have hstrip : stripWs bn ≠ [] := by
    intro h
    have hall := all_ws_of_stripWs_nil h c0 hc0mem
    simp [hc0ws] at hall
  have hcoerce : coerceName bn = bn := by
    unfold coerceName
    rw [if_neg (not_or.mpr ⟨hbn_ne, hstrip⟩)]
  have hcons : hasConsonants bn = true := by
    unfold hasConsonants
    rw [List.any_eq_true]
    exact ⟨c0, hc0mem, by simp [hc0alpha, hc0cons]⟩
  unfold App.generate_brand_id at hgen
  dsimp only at hgen
  rw [hcoerce] at hgen
  rw [if_pos hcons] at hgen
  obtain ⟨np4, hpad, hout⟩ := Option.map_eq_some'.mp hgen
  subst hout
  have hwords : ∀ w ∈ (if splitWs bn = [] then [unknownCodes] else splitWs bn),
      w ≠ [] ∧ ∀ c ∈ w, isAlphaCp c = true := by
    by_cases hsp : splitWs bn = []
    · rw [if_pos hsp]
      intro w hw
      simp only [List.mem_singleton] at hw
      subst hw
      exact ⟨by decide, by decide⟩
    · rw [if_neg hsp]
      intro w hw
      refine splitWsAux_words (fun c => isAlphaCp c = true) bn [] ?_ (by simp) w hw
      intro c hc hws
      exact (hchar c hc).resolve_right (by simp [hws])
  have hloop := appWordLoop_inv _ [] []  hwords (by simp) (by simp)
  have htake_len :
      ((App.appWordLoop (if splitWs bn = [] then [unknownCodes] else splitWs bn)
        [] []).1.take 4).length ≤ 4 := by
    rw [List.length_take]
    omega
  have htake_up : ∀ c ∈ (App.appWordLoop
      (if splitWs bn = [] then [unknownCodes] else splitWs bn) [] []).1.take 4,
      isUpperCp c = true :=
    fun c hc => hloop.2 c (List.mem_of_mem_take hc)
  have hfour := padUsed_some_inv fuel _ _ 0 np4 hpad htake_len htake_up
  have hep := emailPartCodes_len_digits (coerceEmail em)
  exact matches_format_build np4 _ hfour.1 hfour.2 hep.1 hep.2

/-- C2 witness: the format theorem applied at the worked example — the
terminating run on "Acme Design Studio" satisfies the hypotheses and its
output BRAND-ACDS-0670 matches the documented shape. -/
theorem C2_format_witness :
    matchesBrandIdFormat (codes "BRAND-ACDS-0670") = true := by
  exact C2_brand_id_format_for_letter_names 10 (codes "Acme Design Studio")
    (codes "x@y.com") (codes "BRAND-ACDS-0670") (by decide) (by decide)
    ⟨99, by decide, by decide, by decide⟩
